import Mathlib

/-
Verification of the gdls core (src/gdls: cache.py, paths.py, explorer.py,
core.py) against its design document.  The Python classes are shallowly
embedded: dictionaries become association lists, the remote Drive service
becomes an explicit finite map from folder identifiers to result pages,
wall-clock time and file-system effects become explicit parameters, and
fallible operations return Except values.
-/

namespace Gdls

/-- Mime type string that marks a folder (explorer.py, paths.py). -/
def folderMime : String := "application/vnd.google-apps.folder"

/-- core.py: CACHE_TTL_SECONDS = 60 * 60. -/
def CACHE_TTL_SECONDS : Int := 60 * 60

/-- Python dict read d.get(k) on an association list. -/
def assocGet (k : String) : List (String × β) → Option β
  | [] => none
  | (k', v) :: t => if k' = k then some v else assocGet k t

/-- Python dict write d[k] = v on an association list. -/
def assocSet (k : String) (v : β) : List (String × β) → List (String × β)
  | [] => [(k, v)]
  | (k', v') :: t => if k' = k then (k, v) :: t else (k', v') :: assocSet k v t

/-- One item of a files().list result page as consumed by
DriveExplorer._recursive_folder_size (fields id, mimeType, size; a missing
size field is `none`). -/
structure RItem where
  id : String
  mimeType : String
  size : Option Int
deriving DecidableEq

/-- The remote drive as seen by the size-calculation queries
(q = "'<id>' in parents and trashed=false"): each folder identifier maps to
the list of result pages the paginated files().list loop walks through.  A
folder identifier absent from the map yields no result pages (its while
loop ends after an empty listing). -/
abbrev Drive := List (String × List (List RItem))

/-- All folder identifiers that appear as keys of the drive map. -/
def driveIds (d : Drive) : Finset String := (d.map Prod.fst).toFinset

mutual

/-- DriveExplorer._recursive_folder_size (explorer.py lines 134-167):
return 0 when the current identifier is already in the per-branch visited
set; otherwise add the identifier to the visited set and accumulate over
all items of all result pages.  Totality of this definition is the
termination argument: along any descent branch the visited set only grows
inside the finite key set of the drive. -/
def recursive_folder_size (drive : Drive) (folder_id : String)
    (visited : List String) : Int :=
  if folder_id ∈ visited then 0
  else
    match h : assocGet folder_id drive with
    | none => 0
    | some pages => size_of_items drive (folder_id :: visited) pages.flatten
termination_by (((driveIds drive).filter (fun x => x ∉ visited)).card, 0)
decreasing_by
  have hmem : folder_id ∈ driveIds drive := by
    clear * - h
    induction drive with
    | nil => simp [assocGet] at h
    | cons hd tl ih =>
      rw [assocGet] at h
      by_cases hk : hd.1 = folder_id
      · simp [driveIds, hk.symm]
      · simp only [if_neg hk] at h
        have := ih h
        simp only [driveIds, List.map_cons, List.toFinset_cons, Finset.mem_insert,
          List.mem_toFinset] at this ⊢
        right
        simpa [driveIds, List.mem_toFinset] using this
  apply Prod.Lex.left
  apply Finset.card_lt_card
  constructor
  · intro x hx
    simp only [Finset.mem_filter, List.mem_cons, not_or] at hx ⊢
    exact ⟨hx.1, hx.2.2⟩
  · intro hsub
    have hin : folder_id ∈ (driveIds drive).filter (fun x => x ∉ visited) := by
      simp only [Finset.mem_filter]
      exact ⟨hmem, by assumption⟩
    have := hsub hin
    simp only [Finset.mem_filter, List.mem_cons, not_or] at this
    exact this.2.1 trivial

/-- The accumulation loop of _recursive_folder_size over the items of all
result pages: a present size field is added directly, an item of folder
mime type is descended into with (a copy of) the extended visited set, and
anything else contributes 0. -/
def size_of_items (drive : Drive) (visited : List String)
    (items : List RItem) : Int :=
  match items with
  | [] => 0
  | item :: rest =>
    (match item.size with
     | some s => s
     | none =>
       if item.mimeType = folderMime then
         recursive_folder_size drive item.id visited
       else 0)
    + size_of_items drive visited rest
termination_by (((driveIds drive).filter (fun x => x ∉ visited)).card, items.length + 1)
decreasing_by
  · exact Prod.Lex.right _ (by omega)
  · exact Prod.Lex.right _ (by simp only [List.length_cons]; omega)

end

/-- Fuel-indexed restatement of _recursive_folder_size, used to evaluate the
well-founded definition on concrete drives (they agree once the fuel exceeds
the number of unvisited drive keys). -/
def size_fuel (drive : Drive) : Nat → String → List String → Int
  | 0, _, _ => 0
  | fuel + 1, folder_id, visited =>
    if folder_id ∈ visited then 0
    else
      match assocGet folder_id drive with
      | none => 0
      | some pages =>
        (pages.flatten.map (fun item =>
          match item.size with
          | some s => s
          | none =>
            if item.mimeType = folderMime then
              size_fuel drive fuel item.id (folder_id :: visited)
            else 0)).sum

/-- One value of the paths namespace of the cache
(cache.py set_path: a dict with keys id, name, timestamp). -/
structure PathEntry where
  id : String
  name : String
  timestamp : Int
deriving DecidableEq

/-- One value of the folder_sizes namespace of the cache
(cache.py set_folder_size: a dict with keys size, timestamp). -/
structure SizeEntry where
  size : Int
  timestamp : Int
deriving DecidableEq

/-- The in-memory cache dictionary of DriveCache: the two namespaces
produced by normal operation (cache.py lines 79, 85, 98).  Python dicts are
modelled as association lists.  Wall-clock time (datetime.now().timestamp())
is an explicit `now` argument of the mutating operations. -/
structure CacheData where
  paths : List (String × PathEntry)
  folder_sizes : List (String × SizeEntry)
deriving DecidableEq

/-- core.py PathInfo (fields id, name, path). -/
structure PathInfo where
  id : String
  name : String
  path : String
deriving DecidableEq

/-- DriveCache.get_path (cache.py lines 20-33): no freshness check, the
cached id and name are wrapped back into a PathInfo carrying the queried
path. -/
def get_path (c : CacheData) (path : String) : Option PathInfo :=
  match assocGet path c.paths with
  | none => none
  | some e => some ⟨e.id, e.name, path⟩

/-- DriveCache.set_path (cache.py lines 35-45): overwrite the entry with the
current timestamp. -/
def set_path (now : Int) (c : CacheData) (path : String) (pi : PathInfo) :
    CacheData :=
  { c with paths := assocSet path ⟨pi.id, pi.name, now⟩ c.paths }

/-- DriveCache.get_folder_size (cache.py lines 47-63): the lookup key is
the string "size_" followed by the folder id (f-string "size_{folder_id}"),
and an entry older than CACHE_TTL_SECONDS behaves as absent. -/
def get_folder_size (now : Int) (c : CacheData) (folder_id : String) :
    Option Int :=
  match assocGet ("size_" ++ folder_id) c.folder_sizes with
  | none => none
  | some e => if now - e.timestamp > CACHE_TTL_SECONDS then none else some e.size

/-- DriveCache.set_folder_size (cache.py lines 65-75): store under key
"size_" followed by the folder id, stamped with the current time. -/
def set_folder_size (now : Int) (c : CacheData) (folder_id : String)
    (size : Int) : CacheData :=
  { c with
    folder_sizes := assocSet ("size_" ++ folder_id) ⟨size, now⟩ c.folder_sizes }

/-- DriveCache.clear (cache.py lines 77-80): reset both namespaces. -/
def clear_cache : CacheData := ⟨[], []⟩

/-- JSON values, for the persisted backing store of the cache. -/
inductive JsonVal where
  | jnull : JsonVal
  | jbool : Bool → JsonVal
  | jnum : Int → JsonVal
  | jstr : String → JsonVal
  | jarr : List JsonVal → JsonVal
  | jobj : List (String × JsonVal) → JsonVal

/-- Python equality test of the string s against a JSON value (true exactly
when the value is that string). -/
def jsonIsStr (s : String) : JsonVal → Bool
  | .jstr t => t = s
  | _ => false

/-- The state of the cache backing file as seen by DriveCache._load_cache:
missing file, unreadable file (IOError on open/read), readable but not
parseable as JSON (json.JSONDecodeError), or readable with a parsed JSON
value. -/
inductive FileState where
  | missing : FileState
  | unreadable : FileState
  | notJson : FileState
  | content : JsonVal → FileState

/-- Python runtime errors that DriveCache._load_cache can leak (TypeError
from indexing/membership on a non-dict) and that input validation raises
(ValueError with a message). -/
inductive PyErr where
  | typeError : PyErr
  | valueError : String → PyErr
deriving DecidableEq

/-- The fresh cache dictionary ({'paths': {}, 'folder_sizes': {}}) as a JSON
object. -/
def emptyCacheJson : JsonVal :=
  .jobj [("paths", .jobj []), ("folder_sizes", .jobj [])]

/-- Membership test of a string key in a JSON-object key list (Python
`'k' in data` for a dict). -/
def jsonObjHasKey (k : String) (m : List (String × JsonVal)) : Bool :=
  m.any (fun e => e.1 = k)

/-- DriveCache._load_cache (cache.py lines 82-98).  A missing file, an
IOError, or a json.JSONDecodeError yields the fresh two-namespace dict.  A
parsed JSON object gets missing 'paths'/'folder_sizes' keys appended (dict
insertion appends) and is returned as is.  A parsed non-object escapes the
except clause: for a list, `'paths' in data` is an element-membership test
and the subsequent `data['paths'] = {}` raises TypeError; for a string it
is a substring test and the assignment raises TypeError; for a number,
boolean or null the membership test itself raises TypeError. -/
def load_cache (fs : FileState) : Except PyErr JsonVal :=
  match fs with
  | .missing => .ok emptyCacheJson
  | .unreadable => .ok emptyCacheJson
  | .notJson => .ok emptyCacheJson
  | .content (.jobj m) =>
    let m := if jsonObjHasKey "paths" m then m else m ++ [("paths", .jobj [])]
    let m :=
      if jsonObjHasKey "folder_sizes" m then m
      else m ++ [("folder_sizes", .jobj [])]
    .ok (.jobj m)
  | .content (.jarr l) =>
    if l.any (jsonIsStr "paths") then
      if l.any (jsonIsStr "folder_sizes") then .ok (.jarr l)
      else .error .typeError
    else .error .typeError
  | .content (.jstr s) =>
    if ("paths".data.IsInfix s.data) ∧ ("folder_sizes".data.IsInfix s.data) then
      .ok (.jstr s)
    else .error .typeError
  | .content .jnull => .error .typeError
  | .content (.jbool _) => .error .typeError
  | .content (.jnum _) => .error .typeError

/-- Outcome of the file write attempted by DriveCache._save_cache. -/
inductive WriteOutcome where
  | writeOk : WriteOutcome
  | writeFail : String → WriteOutcome

/-- json.dump of the in-memory cache dict: the persisted file is one JSON
object holding the two namespace maps (cache.py _save_cache). -/
def dump_cache (c : CacheData) : JsonVal :=
  .jobj
    [("paths", .jobj (c.paths.map (fun e =>
        (e.1, .jobj [("id", .jstr e.2.id), ("name", .jstr e.2.name),
                     ("timestamp", .jnum e.2.timestamp)])))),
     ("folder_sizes", .jobj (c.folder_sizes.map (fun e =>
        (e.1, .jobj [("size", .jnum e.2.size),
                     ("timestamp", .jnum e.2.timestamp)]))))]

/-- The top-level keys of a dumped JSON object. -/
def jsonTopKeys : JsonVal → List String
  | .jobj m => m.map Prod.fst
  | _ => []

/-- DriveCache._save_cache (cache.py lines 100-106): an IOError while
writing is re-raised as DriveCacheError("Failed to save cache: ..."). -/
def save_cache (w : WriteOutcome) : Except String Unit :=
  match w with
  | .writeOk => .ok ()
  | .writeFail e => .error ("Failed to save cache: " ++ e)

/-- set_path followed by the write-through persist: a write failure
propagates as the cache error. -/
def set_path_persist (w : WriteOutcome) (now : Int) (c : CacheData)
    (path : String) (pi : PathInfo) : Except String CacheData :=
  match save_cache w with
  | .ok _ => .ok (set_path now c path pi)
  | .error e => .error e

/-- set_folder_size followed by the write-through persist. -/
def set_folder_size_persist (w : WriteOutcome) (now : Int) (c : CacheData)
    (folder_id : String) (size : Int) : Except String CacheData :=
  match save_cache w with
  | .ok _ => .ok (set_folder_size now c folder_id size)
  | .error e => .error e

/-- clear followed by the write-through persist. -/
def clear_persist (w : WriteOutcome) : Except String CacheData :=
  match save_cache w with
  | .ok _ => .ok clear_cache
  | .error e => .error e

/-- DriveExplorer.calculate_folder_size (explorer.py lines 45-59): reject an
empty folder id, consult the cache, otherwise run the recursive traversal
with a fresh visited set and write the total back through the cache. -/
def calculate_folder_size (drive : Drive) (now : Int) (c : CacheData)
    (folder_id : String) : Except PyErr (Int × CacheData) :=
  if folder_id = "" then
    .error (.valueError "folder_id must be a non-empty string")
  else
    match get_folder_size now c folder_id with
    | some s => .ok (s, c)
    | none =>
      let total := recursive_folder_size drive folder_id []
      .ok (total, set_folder_size now c folder_id total)

/-- The outcome of one remote child-folder query issued by
PathResolver._find_folder_in_parent (q filters on parent, exact name,
folder mime type, trashed=false, pageSize=1): the first matching folder's
(id, name), no match, or an HttpError. -/
inductive FindResult where
  | found : String → String → FindResult
  | noMatch : FindResult
  | httpError : String → FindResult

/-- The remote service surface used by the path resolver: one child-folder
query per (parent id, folder name) pair. -/
structure PathsSvc where
  find : String → String → FindResult

/-- The message of the DrivePathNotFoundError raised inside
_find_folder_in_parent when the query returns no items. -/
def notFoundMsg (folder_name : String) : String :=
  "Folder \x27" ++ folder_name ++ "\x27 not found"

/-- The message of the DrivePathNotFoundError raised inside
_find_folder_in_parent when the query raises HttpError. -/
def accessErrMsg (folder_name e : String) : String :=
  "Error accessing folder \x27" ++ folder_name ++ "\x27: " ++ e

/-- The message of the DrivePathNotFoundError re-raised by
_resolve_path_components, naming the failing segment and the full requested
path (paths.py line 60). -/
def chainMsg (part path : String) : String :=
  "Folder \x27" ++ part ++ "\x27 not found in path \x27" ++ path ++ "\x27"

/-- PathResolver._find_folder_in_parent (paths.py lines 64-87): one remote
lookup; zero results raise DrivePathNotFoundError, an HttpError is wrapped
into a DrivePathNotFoundError as well. -/
def find_folder_in_parent (svc : PathsSvc) (parent_id folder_name : String) :
    Except String (String × String) :=
  match svc.find parent_id folder_name with
  | .found i n => .ok (i, n)
  | .noMatch => .error (notFoundMsg folder_name)
  | .httpError e => .error (accessErrMsg folder_name e)

/-- Python str.strip('/'): drop leading and trailing slash characters. -/
def pyStripSlashes (s : String) : String :=
  ⟨((s.data.dropWhile (fun c => c = '/')).reverse.dropWhile
      (fun c => c = '/')).reverse⟩

/-- Python str.split on a single separator character: "".split(sep) gives
[''], and consecutive separators yield empty pieces. -/
def splitChar (sep : Char) : List Char → List (List Char)
  | [] => [[]]
  | c :: rest =>
    if c = sep then [] :: splitChar sep rest
    else
      match splitChar sep rest with
      | [] => [[c]]
      | p :: ps => (c :: p) :: ps

/-- The segment list of _resolve_path_components (paths.py line 52):
path.strip('/').split('/') with empty segments dropped. -/
def pySplitParts (path : String) : List String :=
  ((splitChar '/' (pyStripSlashes path).data).map (fun l => (⟨l⟩ : String))).filter
    (fun p => p ≠ "")

/-- The segment walk of _resolve_path_components: starting from the current
(id, name), look each remaining segment up in turn; any
DrivePathNotFoundError from _find_folder_in_parent is re-raised with the
segment and full path.  The second component counts remote lookups. -/
def walk_parts (svc : PathsSvc) (path : String) (cur : String × String) :
    List String → Except String (String × String) × Nat
  | [] => (.ok cur, 0)
  | part :: rest =>
    match find_folder_in_parent svc cur.1 part with
    | .error _ => (.error (chainMsg part path), 1)
    | .ok nxt =>
      let r := walk_parts svc path nxt rest
      (r.1, r.2 + 1)

/-- PathResolver._resolve_path_components (paths.py lines 50-62): split the
path, walk from ('root', 'My Drive'), and wrap the final (id, name) into a
PathInfo carrying the requested path.  The second component counts remote
lookups. -/
def resolve_path_components (svc : PathsSvc) (path : String) :
    Except String PathInfo × Nat :=
  match walk_parts svc path ("root", "My Drive") (pySplitParts path) with
  | (.ok cur, n) => (.ok ⟨cur.1, cur.2, path⟩, n)
  | (.error e, n) => (.error e, n)

/-- PathResolver.resolve (paths.py lines 17-48).  The result is the
resolution outcome, the cache after the call, the number of remote lookups
issued, and the number of cache lookups performed (0 on the immediate-root
branch, 1 otherwise).  An empty path is replaced by '/'; '/' returns the
well-known root immediately; otherwise the cache is consulted, and only a
fully successful resolution is written back (set_path after the whole
chain). -/
def resolve (svc : PathsSvc) (c : CacheData) (now : Int) (path : String) :
    Except String PathInfo × CacheData × Nat × Nat :=
  let path := if path = "" then "/" else path
  if path = "/" then (.ok ⟨"root", "My Drive", "/"⟩, c, 0, 0)
  else
    match get_path c path with
    | some pi => (.ok pi, c, 0, 1)
    | none =>
      match resolve_path_components svc path with
      | (.ok pi, n) => (.ok pi, set_path now c path pi, n, 1)
      | (.error e, n) => (.error e, c, n, 1)

/-- core.py DriveItem, restricted to the fields the listing logic reads
(id, name, mime_type, size, modified_time, owned_by_me, shared,
calculated_size).  The modification timestamp is modelled as an optional
integer. -/
structure DriveItem where
  id : String
  name : String
  mime_type : String
  size : Option Int
  modified_time : Option Int
  owned_by_me : Bool
  shared : Bool
  calculated_size : Option Int
deriving DecidableEq

/-- DriveItem.is_folder (core.py line 84). -/
def DriveItem.is_folder (it : DriveItem) : Bool := it.mime_type = folderMime

/-- DriveItem.display_size (core.py line 94): calculated_size or size or 0,
with Python falsiness (None and 0 both fall through). -/
def DriveItem.display_size (it : DriveItem) : Int :=
  match it.calculated_size with
  | some v => if v ≠ 0 then v else match it.size with
    | some w => w
    | none => 0
  | none => match it.size with
    | some w => if w ≠ 0 then w else 0
    | none => 0

/-- core.py ListOptions, restricted to the fields list_files reads. -/
structure ListOptions where
  show_hidden : Bool
  sort_by : String
  reverse_sort : Bool
  show_size : Bool
  owned_only : Bool

/-- Sort key for sort_by='date': modified_time or datetime.min, so a missing
timestamp sorts as earliest.  Encoded as a pair ordered lexicographically,
with first component 0 marking the missing timestamp. -/
def dateKey (it : DriveItem) : Int × Int :=
  match it.modified_time with
  | none => (0, 0)
  | some t => (1, t)

/-- Decidable lexicographic order on the date keys. -/
def dateKeyLe (a b : Int × Int) : Bool :=
  a.1 < b.1 ∨ (a.1 = b.1 ∧ a.2 ≤ b.2)

/-- DriveExplorer._sort_items (explorer.py lines 169-183): a stable sort on
the requested key (size and date descending, type by (mime, lowercased
name), anything else by lowercased name), then a whole-list reversal when
reverse_sort is set. -/
def sort_items (items : List DriveItem) (o : ListOptions) : List DriveItem :=
  let sorted :=
    if o.sort_by = "size" then
      items.mergeSort (fun a b => b.display_size ≤ a.display_size)
    else if o.sort_by = "date" then
      items.mergeSort (fun a b => dateKeyLe (dateKey b) (dateKey a))
    else if o.sort_by = "type" then
      items.mergeSort (fun a b =>
        a.mime_type < b.mime_type ∨
          (a.mime_type = b.mime_type ∧ a.name.toLower ≤ b.name.toLower))
    else
      items.mergeSort (fun a b => a.name.toLower ≤ b.name.toLower)
  if o.reverse_sort then sorted.reverse else sorted

/-- DriveExplorer._calculate_folder_sizes (explorer.py lines 124-132),
threading the cache through the per-item calculate_folder_size calls: an
owned folder receives the calculated size, an unowned folder receives
exactly 0 without any traversal, and non-folders are untouched. -/
def calc_folder_sizes (drive : Drive) (now : Int) :
    CacheData → List DriveItem → Except PyErr (List DriveItem × CacheData)
  | c, [] => .ok ([], c)
  | c, it :: rest =>
    if it.is_folder then
      if it.owned_by_me then
        match calculate_folder_size drive now c it.id with
        | .error e => .error e
        | .ok (sz, c') =>
          match calc_folder_sizes drive now c' rest with
          | .error e => .error e
          | .ok (rest', c'') =>
            .ok ({ it with calculated_size := some sz } :: rest', c'')
      else
        match calc_folder_sizes drive now c rest with
        | .error e => .error e
        | .ok (rest', c') =>
          .ok ({ it with calculated_size := some 0 } :: rest', c')
    else
      match calc_folder_sizes drive now c rest with
      | .error e => .error e
      | .ok (rest', c') => .ok (it :: rest', c')

/-- The paginated fetch of DriveExplorer._fetch_items (explorer.py lines
61-92), already converted to DriveItem values: the function gives the
result pages for a folder id, with the flag telling whether trashed items
were requested (options.show_hidden drops the trashed=false filter from the
query). -/
abbrev FetchFn := String → Bool → List (List DriveItem)

/-- DriveExplorer.list_files (explorer.py lines 20-43): validate the folder
id, fetch and accumulate all result pages, filter to owned items when
owned_only is set, annotate folder sizes when show_size is set, then sort.
The cache threaded through the size calculations is returned alongside the
items. -/
def list_files (fetch : FetchFn) (drive : Drive) (now : Int) (c : CacheData)
    (folder_id : String) (o : ListOptions) :
    Except PyErr (List DriveItem × CacheData) :=
  if folder_id = "" then
    .error (.valueError "folder_id must be a non-empty string")
  else
    let items := (fetch folder_id o.show_hidden).flatten
    let items := if o.owned_only then items.filter (fun it => it.owned_by_me)
      else items
    match (if o.show_size then calc_folder_sizes drive now c items
           else .ok (items, c)) with
    | .error e => .error e
    | .ok (items, c') => .ok (sort_items items o, c')

/-- The children of a folder in the drive, across all result pages (empty
for a folder the drive has no entry for). -/
def joined (d : Drive) (folder_id : String) : List RItem :=
  match assocGet folder_id d with
  | none => []
  | some pages => pages.flatten

/-- A finite folder tree: a folder identifier, its non-folder child items
(leaves as raw result items), and its child folder subtrees.  Flattened to
a Drive it describes exactly the folder graphs in which every folder is
reachable from the root along one path. -/
inductive FTree where
  | node : String → List RItem → List FTree → FTree

/-- The root folder identifier of a tree. -/
def FTree.rootId : FTree → String
  | .node i _ _ => i

mutual

/-- All folder identifiers of a tree, root first. -/
def folder_ids : FTree → List String
  | .node i _ subs => i :: subs_ids subs

/-- All folder identifiers of a list of subtrees. -/
def subs_ids : List FTree → List String
  | [] => []
  | t :: ts => folder_ids t ++ subs_ids ts

end

/-- The contribution of one leaf item to the total: its size when the size
field is present, otherwise 0. -/
def leafVal (it : RItem) : Int :=
  match it.size with
  | some s => s
  | none => 0

mutual

/-- The sum of all file sizes stored anywhere in the tree: this is the
specification-level "sum of all file byte sizes reachable from the root". -/
def tree_file_sum : FTree → Int
  | .node _ leaves subs => (leaves.map leafVal).sum + subs_file_sum subs

/-- The sum of all file sizes of a list of subtrees. -/
def subs_file_sum : List FTree → Int
  | [] => 0
  | t :: ts => tree_file_sum t + subs_file_sum ts

end

/-- The single children listing of a tree node as the remote service
returns it: the leaf items followed by one folder-typed item (no size
field) per child subtree. -/
def child_items : FTree → List RItem
  | .node _ leaves subs =>
    leaves ++ subs.map (fun t => ⟨t.rootId, folderMime, none⟩)

mutual

/-- The drive map described by a tree: one single-page entry per folder of
the tree, root entry first. -/
def tree_entries : FTree → Drive
  | .node i leaves subs => (i, [child_items (.node i leaves subs)]) :: subs_entries subs

/-- The drive entries of a list of subtrees. -/
def subs_entries : List FTree → Drive
  | [] => []
  | t :: ts => tree_entries t ++ subs_entries ts

end

mutual

/-- Well-formedness of the leaves: a leaf without a size field must not
carry the folder mime type (such an item would be a folder child and belongs
in the subtree list instead). -/
def tree_ok : FTree → Bool
  | .node _ leaves subs =>
    leaves.all (fun it => it.size.isSome || it.mimeType ≠ folderMime) &&
      subs_ok subs

/-- Well-formedness of a list of subtrees. -/
def subs_ok : List FTree → Bool
  | [] => true
  | t :: ts => tree_ok t && subs_ok ts

end

/-- The acyclic folder graph with two root-to-leaf paths meeting in one
shared folder: a has child folders b and c, b and c both have the child
folder d, and d holds one file of 10 bytes.  Every file of this graph
summed once gives 10. -/
def diamondDrive : Drive :=
  [("a", [[⟨"b", folderMime, none⟩, ⟨"c", folderMime, none⟩]]),
   ("b", [[⟨"d", folderMime, none⟩]]),
   ("c", [[⟨"d", folderMime, none⟩]]),
   ("d", [[⟨"f", "text/plain", some 10⟩]])]

/-- Every file size of the whole drive, summed once per listed item. -/
def drive_files_total (d : Drive) : Int :=
  (d.map (fun e => ((e.2.flatten).filterMap RItem.size).sum)).sum

/-- A two-folder cycle: folder a contains the folder d, and d contains both
the folder a (the cyclic re-entry) and one plain file of s bytes (d's
non-cyclic contents). -/
def cycleDrive (a d : String) (s : Int) : Drive :=
  [(a, [[⟨d, folderMime, none⟩]]),
   (d, [[⟨a, folderMime, none⟩, ⟨"cyc_file", "text/plain", some s⟩]])]

/-- The contribution of one listed item during the traversal of a folder
whose extended visited set is v. -/
def item_contrib (D : Drive) (v : List String) (it : RItem) : Int :=
  match it.size with
  | some s => s
  | none => if it.mimeType = folderMime then recursive_folder_size D it.id v else 0

/-- s is a subtree of t (t itself, or nested below one of its child
subtrees). -/
inductive Subtree : FTree → FTree → Prop
  | refl (t : FTree) : Subtree t t
  | step {s t' : FTree} {i : String} {leaves : List RItem} {subs : List FTree} :
      t' ∈ subs → Subtree s t' → Subtree s (.node i leaves subs)

/-- Coherence of the folder_sizes namespace with a drive: every entry was
written under a "size_"-prefixed folder id and stores the traversal total of
that folder.  Fresh caches satisfy it, and calculate_folder_size preserves
it. -/
def size_inv (drive : Drive) (c : CacheData) : Prop :=
  ∀ k e, assocGet k c.folder_sizes = some e →
    ∃ i, k = "size_" ++ i ∧ e.size = recursive_folder_size drive i []

/-- A two-level sample tree used to instantiate the tree theorems: root r
holds a 3-byte file and the subfolder s, which holds a 4-byte file. -/
def sampleTree : FTree :=
  .node "r" [⟨"f1", "text/plain", some 3⟩]
    [.node "s" [⟨"f2", "text/plain", some 4⟩] []]

end Gdls

namespace Gdls

/-! Association list facts. -/

theorem assocGet_assocSet_self (k : String) (v : β) :
    ∀ l : List (String × β), assocGet k (assocSet k v l) = some v := by
  intro l
  induction l with
  | nil => simp [assocGet, assocSet]
  | cons hd tl ih =>
    by_cases hk : hd.1 = k
    · simp [assocGet, assocSet, hk]
    · simp [assocGet, assocSet, hk, ih]

theorem assocGet_assocSet_ne (k k' : String) (v : β) (hne : k' ≠ k) :
    ∀ l : List (String × β), assocGet k' (assocSet k v l) = assocGet k' l := by
  have hkk : ¬(k = k') := fun h => hne h.symm
  intro l
  induction l with
  | nil => simp [assocGet, assocSet, hkk]
  | cons hd tl ih =>
    by_cases hk : hd.1 = k
    · simp [assocGet, assocSet, hk, hkk]
    · simp only [assocSet, if_neg hk, assocGet]
      by_cases hk' : hd.1 = k'
      · simp [hk']
      · simp [hk', ih]

theorem assocGet_some_mem {k : String} {v : β} :
    ∀ {l : List (String × β)}, assocGet k l = some v → k ∈ l.map Prod.fst := by
  intro l
  induction l with
  | nil => intro h; simp [assocGet] at h
  | cons hd tl ih =>
    intro h
    rw [assocGet] at h
    by_cases hk : hd.1 = k
    · simp [hk.symm]
    · simp only [if_neg hk] at h
      simpa using Or.inr (ih h)

theorem assocGet_eq_none_of_not_mem {k : String} :
    ∀ {l : List (String × β)}, k ∉ l.map Prod.fst → assocGet k l = none := by
  intro l
  induction l with
  | nil => intro _; rfl
  | cons hd tl ih =>
    intro h
    simp only [List.map_cons, List.mem_cons, not_or] at h
    rw [assocGet, if_neg (fun he => h.1 he.symm)]
    exact ih h.2

theorem assocGet_append_of_some {k : String} {v : β} {l₁ l₂ : List (String × β)}
    (h : assocGet k l₁ = some v) : assocGet k (l₁ ++ l₂) = some v := by
  induction l₁ with
  | nil => simp [assocGet] at h
  | cons hd tl ih =>
    rw [assocGet] at h
    rw [List.cons_append, assocGet]
    by_cases hk : hd.1 = k
    · simpa [hk] using h
    · simp only [if_neg hk] at h ⊢
      exact ih h

theorem assocGet_append_of_none {k : String} {l₁ l₂ : List (String × β)}
    (h : assocGet k l₁ = none) : assocGet k (l₁ ++ l₂) = assocGet k l₂ := by
  induction l₁ with
  | nil => simp
  | cons hd tl ih =>
    rw [assocGet] at h
    rw [List.cons_append, assocGet]
    by_cases hk : hd.1 = k
    · simp [hk] at h
    · simp only [if_neg hk] at h ⊢
      exact ih h

/-! String facts. -/

theorem string_append_cancel {a b c : String} (h : a ++ b = a ++ c) : b = c := by
  have hd : (a ++ b).data = (a ++ c).data := by rw [h]
  simp only [String.data_append] at hd
  exact String.ext (List.append_cancel_left hd)

/-! Unfolding and shape facts for the recursive size calculator. -/

theorem recursive_folder_size_eq (D : Drive) (fid : String) (v : List String) :
    recursive_folder_size D fid v =
      if fid ∈ v then 0 else size_of_items D (fid :: v) (joined D fid) := by
  rw [recursive_folder_size]
  by_cases hv : fid ∈ v
  · simp [hv]
  · simp only [if_neg hv]
    cases h : assocGet fid D with
    | none => simp [joined, h, size_of_items]
    | some pages => simp [joined, h]

theorem size_of_items_nil (D : Drive) (v : List String) :
    size_of_items D v [] = 0 := by
  rw [size_of_items]

theorem size_of_items_cons (D : Drive) (v : List String) (it : RItem)
    (rest : List RItem) :
    size_of_items D v (it :: rest) =
      (match it.size with
       | some s => s
       | none =>
         if it.mimeType = folderMime then recursive_folder_size D it.id v
         else 0) + size_of_items D v rest := by
  rw [size_of_items]

theorem size_of_items_eq_map_sum (D : Drive) (v : List String) :
    ∀ items : List RItem,
      size_of_items D v items = (items.map (item_contrib D v)).sum := by
  intro items
  induction items with
  | nil => simp [size_of_items_nil]
  | cons it rest ih => rw [size_of_items_cons, List.map_cons, List.sum_cons, ih]; rfl

theorem size_of_items_append (D : Drive) (v : List String)
    (l₁ l₂ : List RItem) :
    size_of_items D v (l₁ ++ l₂) = size_of_items D v l₁ + size_of_items D v l₂ := by
  simp [size_of_items_eq_map_sum]

theorem driveIds_mem {D : Drive} {fid : String} :
    fid ∈ driveIds D ↔ fid ∈ D.map Prod.fst := by
  simp [driveIds]

theorem filter_cons_card_lt {s : Finset String} {fid : String} {v : List String}
    (hmem : fid ∈ s) (hv : fid ∉ v) :
    (s.filter (fun x => x ∉ fid :: v)).card <
      (s.filter (fun x => x ∉ v)).card := by
  apply Finset.card_lt_card
  constructor
  · intro x hx
    simp only [Finset.mem_filter, List.mem_cons, not_or] at hx ⊢
    exact ⟨hx.1, hx.2.2⟩
  · intro hsub
    have hin : fid ∈ s.filter (fun x => x ∉ v) := by
      simp only [Finset.mem_filter]; exact ⟨hmem, hv⟩
    have hout := hsub hin
    simp only [Finset.mem_filter, List.mem_cons, not_or] at hout
    exact hout.2.1 trivial

theorem recursive_folder_size_eq_fuel (D : Drive) :
    ∀ (fuel : Nat) (fid : String) (v : List String),
      ((driveIds D).filter (fun x => x ∉ v)).card < fuel →
      recursive_folder_size D fid v = size_fuel D fuel fid v := by
  intro fuel
  induction fuel with
  | zero => intro fid v h; exact absurd h (Nat.not_lt_zero _)
  | succ n ih =>
    intro fid v hcard
    rw [recursive_folder_size_eq, size_fuel]
    by_cases hv : fid ∈ v
    · simp [hv]
    · simp only [if_neg hv]
      cases hg : assocGet fid D with
      | none => simp [joined, hg, size_of_items_nil]
      | some pages =>
        simp only [joined, hg]
        rw [size_of_items_eq_map_sum]
        congr 1
        apply List.map_congr_left
        intro it _
        simp only [item_contrib]
        cases hs : it.size with
        | some s => rfl
        | none =>
          by_cases hm : it.mimeType = folderMime
          · rw [if_pos hm, if_pos hm]
            apply ih
            have hmem : fid ∈ driveIds D := driveIds_mem.mpr (assocGet_some_mem hg)
            have := filter_cons_card_lt hmem hv
            omega
          · rw [if_neg hm, if_neg hm]

theorem recursive_folder_size_perm {D₁ D₂ : Drive}
    (hperm : ∀ fid, (joined D₁ fid).Perm (joined D₂ fid)) :
    ∀ (fid : String) (v : List String),
      recursive_folder_size D₁ fid v = recursive_folder_size D₂ fid v := by
  have main : ∀ (n : Nat) (fid : String) (v : List String),
      ((driveIds D₁ ∪ driveIds D₂).filter (fun x => x ∉ v)).card < n →
      recursive_folder_size D₁ fid v = recursive_folder_size D₂ fid v := by
    intro n
    induction n with
    | zero => intro fid v h; exact absurd h (Nat.not_lt_zero _)
    | succ n ih =>
      intro fid v hcard
      rw [recursive_folder_size_eq, recursive_folder_size_eq D₂]
      by_cases hv : fid ∈ v
      · simp [hv]
      · simp only [if_neg hv]
        by_cases hmem : fid ∈ driveIds D₁ ∪ driveIds D₂
        · rw [size_of_items_eq_map_sum, size_of_items_eq_map_sum]
          have hpt : ∀ it : RItem,
              item_contrib D₁ (fid :: v) it = item_contrib D₂ (fid :: v) it := by
            intro it
            simp only [item_contrib]
            cases it.size with
            | some s => rfl
            | none =>
              by_cases hm : it.mimeType = folderMime
              · rw [if_pos hm, if_pos hm]
                apply ih
                have := filter_cons_card_lt hmem hv
                omega
              · rw [if_neg hm, if_neg hm]
          calc ((joined D₁ fid).map (item_contrib D₁ (fid :: v))).sum
              = ((joined D₁ fid).map (item_contrib D₂ (fid :: v))).sum := by
                rw [List.map_congr_left (fun it _ => hpt it)]
            _ = ((joined D₂ fid).map (item_contrib D₂ (fid :: v))).sum :=
                ((hperm fid).map _).sum_eq
        · have h₁ : joined D₁ fid = [] := by
            have hg : assocGet fid D₁ = none := by
              apply assocGet_eq_none_of_not_mem
              intro hc
              exact hmem (Finset.mem_union_left _ (driveIds_mem.mpr hc))
            simp [joined, hg]
          have h₂ : joined D₂ fid = [] := by
            have hg : assocGet fid D₂ = none := by
              apply assocGet_eq_none_of_not_mem
              intro hc
              exact hmem (Finset.mem_union_right _ (driveIds_mem.mpr hc))
            simp [joined, hg]
          rw [h₁, h₂, size_of_items_nil, size_of_items_nil]
  intro fid v
  exact main (((driveIds D₁ ∪ driveIds D₂).filter (fun x => x ∉ v)).card + 1)
    fid v (Nat.lt_succ_self _)

/-! Folder tree facts. -/

theorem subs_ids_extract_of_mem :
    ∀ (subs : List FTree) (t : FTree), t ∈ subs →
      ∃ l r, subs_ids subs = l ++ (folder_ids t ++ r) := by
  intro subs
  induction subs with
  | nil => intro t h; simp at h
  | cons t₀ rest ih =>
    intro t h
    rcases List.mem_cons.mp h with h0 | hr
    · exact ⟨[], subs_ids rest, by rw [subs_ids, h0]; simp⟩
    · obtain ⟨l, r, hlr⟩ := ih t hr
      exact ⟨folder_ids t₀ ++ l, r, by rw [subs_ids, hlr]; simp⟩

theorem mem_subs_ids_of_mem {subs : List FTree} {t : FTree} (h : t ∈ subs) :
    ∀ x ∈ folder_ids t, x ∈ subs_ids subs := by
  obtain ⟨l, r, hlr⟩ := subs_ids_extract_of_mem subs t h
  intro x hx
  rw [hlr]
  simp [hx]

theorem subs_ids_length_of_mem {subs : List FTree} {t : FTree} (h : t ∈ subs) :
    (folder_ids t).length ≤ (subs_ids subs).length := by
  obtain ⟨l, r, hlr⟩ := subs_ids_extract_of_mem subs t h
  rw [hlr]
  simp only [List.length_append]
  omega

theorem subs_ids_nodup_of_mem {subs : List FTree} {t : FTree}
    (hnd : (subs_ids subs).Nodup) (h : t ∈ subs) : (folder_ids t).Nodup := by
  obtain ⟨l, r, hlr⟩ := subs_ids_extract_of_mem subs t h
  rw [hlr] at hnd
  exact ((hnd.of_append_right).of_append_left)

theorem rootId_mem_folder_ids : ∀ t : FTree, t.rootId ∈ folder_ids t := by
  intro t
  cases t with
  | node i leaves subs => rw [folder_ids, FTree.rootId]; exact List.mem_cons_self _ _

theorem subtree_root_mem {s t : FTree} (h : Subtree s t) :
    s.rootId ∈ folder_ids t := by
  induction h with
  | refl => exact rootId_mem_folder_ids _
  | step hmem _ ih =>
    rw [folder_ids]
    exact List.mem_cons_of_mem _ (mem_subs_ids_of_mem hmem _ ih)

mutual

theorem tree_entries_keys : ∀ t : FTree, (tree_entries t).map Prod.fst = folder_ids t
  | .node i leaves subs => by
    rw [tree_entries, folder_ids, List.map_cons, subs_entries_keys subs]

theorem subs_entries_keys : ∀ ts : List FTree, (subs_entries ts).map Prod.fst = subs_ids ts
  | [] => by rw [subs_entries, subs_ids]; rfl
  | t :: ts => by
    rw [subs_entries, subs_ids, List.map_append, tree_entries_keys t,
      subs_entries_keys ts]

end

theorem subs_ok_of_mem :
    ∀ {subs : List FTree}, subs_ok subs = true → ∀ {t : FTree}, t ∈ subs →
      tree_ok t = true := by
  intro subs
  induction subs with
  | nil => intro _ t h; simp at h
  | cons t₀ rest ih =>
    intro hok t h
    rw [subs_ok, Bool.and_eq_true] at hok
    rcases List.mem_cons.mp h with h0 | hr
    · exact h0 ▸ hok.1
    · exact ih hok.2 hr

theorem tree_entries_assocGet {s t : FTree} (hsub : Subtree s t) :
    (folder_ids t).Nodup →
      assocGet s.rootId (tree_entries t) = some [child_items s] := by
  induction hsub with
  | refl =>
    intro _
    cases s with
    | node i leaves subs => simp [FTree.rootId, tree_entries, assocGet]
  | @step t' i leaves subs hmem hsub ih =>
    intro hnd
    rw [folder_ids, List.nodup_cons] at hnd
    have hroot : s.rootId ∈ subs_ids subs :=
      mem_subs_ids_of_mem hmem _ (subtree_root_mem hsub)
    have hne : i ≠ s.rootId := fun he => hnd.1 (he ▸ hroot)
    rw [tree_entries, assocGet, if_neg hne]
    have haux : ∀ subs' : List FTree, (subs_ids subs').Nodup → t' ∈ subs' →
        assocGet s.rootId (subs_entries subs') = some [child_items s] := by
      intro subs'
      induction subs' with
      | nil => intro _ h; simp at h
      | cons t₀ rest ihs =>
        intro hnd' hmem'
        rw [subs_ids] at hnd'
        rw [subs_entries]
        rcases List.mem_cons.mp hmem' with h0 | hr
        · subst h0
          exact assocGet_append_of_some (ih hnd'.of_append_left)
        · have hdisj := List.disjoint_of_nodup_append hnd'
          have hnotin : s.rootId ∉ folder_ids t₀ := by
            intro hc
            exact hdisj hc (mem_subs_ids_of_mem hr _ (subtree_root_mem hsub))
          have hnone : assocGet s.rootId (tree_entries t₀) = none := by
            apply assocGet_eq_none_of_not_mem
            rw [tree_entries_keys]
            exact hnotin
          rw [assocGet_append_of_none hnone]
          exact ihs hnd'.of_append_right hr
    exact haux subs hnd.2 hmem

theorem leaves_size_of_items (D : Drive) (v : List String) :
    ∀ leaves : List RItem,
      leaves.all (fun it => it.size.isSome || it.mimeType ≠ folderMime) = true →
      size_of_items D v leaves = (leaves.map leafVal).sum := by
  intro leaves
  induction leaves with
  | nil => intro _; simp [size_of_items_nil]
  | cons it rest ih =>
    intro hall
    rw [List.all_cons, Bool.and_eq_true] at hall
    rw [size_of_items_cons, List.map_cons, List.sum_cons, ih hall.2]
    congr 1
    cases hs : it.size with
    | some s => simp [leafVal, hs]
    | none =>
      have hm : it.mimeType ≠ folderMime := by
        rcases (Bool.or_eq_true _ _).mp hall.1 with h | h
        · rw [hs] at h; simp at h
        · simpa using h
      simp [leafVal, hs, hm]

theorem subs_size_of_items (D : Drive) (v : List String) :
    ∀ subs : List FTree,
      (∀ t₀ ∈ subs, recursive_folder_size D t₀.rootId v = tree_file_sum t₀) →
      size_of_items D v
          (subs.map (fun t => (⟨t.rootId, folderMime, none⟩ : RItem))) =
        subs_file_sum subs := by
  intro subs
  induction subs with
  | nil => intro _; simp [size_of_items_nil, subs_file_sum]
  | cons t₀ rest ih =>
    intro hall
    rw [List.map_cons, size_of_items_cons, subs_file_sum]
    rw [ih (fun t ht => hall t (List.mem_cons_of_mem _ ht))]
    congr 1
    simpa using hall t₀ (List.mem_cons_self _ _)

theorem tree_sum_of_canonical :
    ∀ (n : Nat) (t : FTree) (D : Drive) (v : List String),
      (folder_ids t).length ≤ n →
      (∀ s, Subtree s t → joined D s.rootId = child_items s) →
      tree_ok t = true →
      (folder_ids t).Nodup →
      (∀ x ∈ folder_ids t, x ∉ v) →
      recursive_folder_size D t.rootId v = tree_file_sum t := by
  intro n
  induction n with
  | zero =>
    intro t D v hlen
    cases t with
    | node i leaves subs =>
      rw [folder_ids] at hlen
      simp at hlen
  | succ n ih =>
    intro t D v hlen hjoin hok hnd hv
    cases t with
    | node i leaves subs =>
      have hiv : i ∉ v := hv i (by rw [folder_ids]; exact List.mem_cons_self _ _)
      have hroot : (FTree.node i leaves subs).rootId = i := rfl
      rw [hroot, recursive_folder_size_eq, if_neg hiv]
      have hj := hjoin _ (Subtree.refl (FTree.node i leaves subs))
      rw [hroot] at hj
      rw [hj, child_items, size_of_items_append]
      rw [folder_ids, List.nodup_cons] at hnd
      rw [tree_ok, Bool.and_eq_true] at hok
      rw [tree_file_sum]
      rw [leaves_size_of_items D _ leaves hok.1]
      congr 1
      apply subs_size_of_items
      intro t₀ hmem
      apply ih t₀ D (i :: v)
      · have h1 := subs_ids_length_of_mem hmem
        rw [folder_ids] at hlen
        simp only [List.length_cons] at hlen
        omega
      · intro s hs; exact hjoin s (Subtree.step hmem hs)
      · exact subs_ok_of_mem hok.2 hmem
      · exact subs_ids_nodup_of_mem hnd.2 hmem
      · intro x hx hc
        rcases List.mem_cons.mp hc with h1 | h1
        · exact hnd.1 (h1 ▸ mem_subs_ids_of_mem hmem x hx)
        · exact hv x
            (by rw [folder_ids]
                exact List.mem_cons_of_mem _ (mem_subs_ids_of_mem hmem x hx)) h1

/-! Cache and size-calculator facts. -/

theorem get_folder_size_eq_some {now : Int} {c : CacheData} {fid : String}
    {s : Int} (h : get_folder_size now c fid = some s) :
    ∃ e, assocGet ("size_" ++ fid) c.folder_sizes = some e ∧ e.size = s ∧
      now - e.timestamp ≤ CACHE_TTL_SECONDS := by
  rw [get_folder_size] at h
  cases hg : assocGet ("size_" ++ fid) c.folder_sizes with
  | none => rw [hg] at h; simp at h
  | some e =>
    rw [hg] at h
    by_cases ht : now - e.timestamp > CACHE_TTL_SECONDS
    · simp [if_pos ht] at h
    · simp only [if_neg ht] at h
      exact ⟨e, rfl, Option.some_inj.mp h, by omega⟩

theorem get_folder_size_set_self (now now' : Int) (c : CacheData)
    (fid : String) (s : Int) :
    get_folder_size now' (set_folder_size now c fid s) fid =
      if now' - now > CACHE_TTL_SECONDS then none else some s := by
  rw [get_folder_size, set_folder_size]
  simp only [assocGet_assocSet_self]

theorem size_prefix_inj {i j : String} (h : "size_" ++ i = "size_" ++ j) :
    i = j := string_append_cancel h

theorem calculate_folder_size_ok_spec {drive : Drive} {now : Int}
    {c : CacheData} {fid : String} {sz : Int} {c' : CacheData}
    (hinv : size_inv drive c)
    (h : calculate_folder_size drive now c fid = .ok (sz, c')) :
    sz = recursive_folder_size drive fid [] ∧ size_inv drive c' := by
  rw [calculate_folder_size] at h
  by_cases he : fid = ""
  · rw [if_pos he] at h; simp at h
  · rw [if_neg he] at h
    cases hg : get_folder_size now c fid with
    | some s =>
      rw [hg] at h
      have hpair : s = sz ∧ c = c' := by
        have := Except.ok.inj h
        exact ⟨congrArg Prod.fst this, congrArg Prod.snd this⟩
      obtain ⟨e, hge, hes, _⟩ := get_folder_size_eq_some hg
      obtain ⟨i, hki, hei⟩ := hinv _ _ hge
      have hif : i = fid := size_prefix_inj hki.symm
      constructor
      · rw [← hpair.1, ← hes, hei, hif]
      · rw [← hpair.2]; exact hinv
    | none =>
      rw [hg] at h
      simp only at h
      have hpair : recursive_folder_size drive fid [] = sz ∧
          set_folder_size now c fid (recursive_folder_size drive fid []) = c' := by
        have := Except.ok.inj h
        exact ⟨congrArg Prod.fst this, congrArg Prod.snd this⟩
      constructor
      · exact hpair.1.symm
      · rw [← hpair.2]
        intro k e hk
        rw [set_folder_size] at hk
        by_cases hkk : k = "size_" ++ fid
        · rw [hkk, assocGet_assocSet_self] at hk
          refine ⟨fid, hkk, ?_⟩
          have := Option.some_inj.mp hk
          rw [← this]
        · rw [assocGet_assocSet_ne _ _ _ hkk] at hk
          exact hinv k e hk

theorem calc_folder_sizes_mem_spec {drive : Drive} {now : Int} :
    ∀ {items : List DriveItem} {c : CacheData} {res : List DriveItem}
      {c' : CacheData},
      size_inv drive c →
      calc_folder_sizes drive now c items = .ok (res, c') →
      ∀ it ∈ res, it.is_folder = true →
        (it.owned_by_me = false → it.calculated_size = some 0) ∧
        (it.owned_by_me = true →
          it.calculated_size = some (recursive_folder_size drive it.id [])) := by
  intro items
  induction items with
  | nil =>
    intro c res c' _ h it hmem
    rw [calc_folder_sizes] at h
    have : ([] : List DriveItem) = res := congrArg Prod.fst (Except.ok.inj h)
    rw [← this] at hmem
    simp at hmem
  | cons it₀ rest ih =>
    intro c res c' hinv h it hmem hfold
    by_cases hf : it₀.is_folder = true
    · by_cases how : it₀.owned_by_me = true
      · cases hc : calculate_folder_size drive now c it₀.id with
        | error e => simp [calc_folder_sizes, hf, how, hc] at h
        | ok p =>
          obtain ⟨sz, c₂⟩ := p
          obtain ⟨hsz, hinv₂⟩ := calculate_folder_size_ok_spec hinv hc
          cases hr : calc_folder_sizes drive now c₂ rest with
          | error e => simp [calc_folder_sizes, hf, how, hc, hr] at h
          | ok q =>
            obtain ⟨rest', c₃⟩ := q
            simp only [calc_folder_sizes, hf, how, hc, hr, if_true] at h
            have hp := Except.ok.inj h
            rw [Prod.mk.injEq] at hp
            rw [← hp.1] at hmem
            rcases List.mem_cons.mp hmem with h0 | hrmem
            · subst h0
              refine ⟨fun hno => ?_, fun _ => ?_⟩
              · simp at hno
              · simp only
                rw [hsz]
            · exact ih hinv₂ hr it hrmem hfold
      · cases hr : calc_folder_sizes drive now c rest with
        | error e => simp [calc_folder_sizes, hf, how, hr] at h
        | ok q =>
          obtain ⟨rest', c₃⟩ := q
          simp only [calc_folder_sizes, hf, how, hr, if_true, Bool.false_eq_true,
            if_false] at h
          have hp := Except.ok.inj h
          rw [Prod.mk.injEq] at hp
          rw [← hp.1] at hmem
          rcases List.mem_cons.mp hmem with h0 | hrmem
          · subst h0
            refine ⟨fun _ => rfl, fun hyes => ?_⟩
            · simp at hyes
          · exact ih hinv hr it hrmem hfold
    · cases hr : calc_folder_sizes drive now c rest with
      | error e => simp [calc_folder_sizes, hf, hr] at h
      | ok q =>
        obtain ⟨rest', c₃⟩ := q
        simp only [calc_folder_sizes, hf, hr, Bool.false_eq_true, if_false] at h
        have hp := Except.ok.inj h
        rw [Prod.mk.injEq] at hp
        rw [← hp.1] at hmem
        rcases List.mem_cons.mp hmem with h0 | hrmem
        · subst h0; exact absurd hfold (by simpa using hf)
        · exact ih hinv hr it hrmem hfold

theorem mem_sort_items {it : DriveItem} {items : List DriveItem}
    {o : ListOptions} : it ∈ sort_items items o ↔ it ∈ items := by
  rw [sort_items]
  by_cases hr : o.reverse_sort
  all_goals
    simp only [hr, if_true, if_false, Bool.false_eq_true, List.mem_reverse]
  all_goals
    by_cases h1 : o.sort_by = "size"
    case pos => simp [h1, (List.mergeSort_perm items _).mem_iff]
    all_goals by_cases h2 : o.sort_by = "date"
    case pos => simp [h1, h2, (List.mergeSort_perm items _).mem_iff]
    all_goals by_cases h3 : o.sort_by = "type"
    case pos => simp [h1, h2, h3, (List.mergeSort_perm items _).mem_iff]
    case neg => simp [h1, h2, h3, (List.mergeSort_perm items _).mem_iff]

/-! Path resolution facts. -/

theorem walk_parts_append_fail (svc : PathsSvc) (path : String) :
    ∀ (pre : List String) (cur cur' : String × String) (k : Nat)
      (seg : String) (rest : List String) (e : String),
      walk_parts svc path cur pre = (.ok cur', k) →
      find_folder_in_parent svc cur'.1 seg = .error e →
      walk_parts svc path cur (pre ++ seg :: rest) =
        (.error (chainMsg seg path), k + 1) := by
  intro pre
  induction pre with
  | nil =>
    intro cur cur' k seg rest e hw hf
    rw [walk_parts, Prod.mk.injEq] at hw
    obtain ⟨h1, h2⟩ := hw
    have hcur := Except.ok.inj h1
    rw [← hcur] at hf
    subst h2
    simp only [List.nil_append]
    rw [walk_parts, hf]
  | cons p ps ih =>
    intro cur cur' k seg rest e hw hf
    cases hfp : find_folder_in_parent svc cur.1 p with
    | error e' =>
      rw [walk_parts, hfp] at hw
      simp at hw
    | ok nxt =>
      simp only [walk_parts, hfp] at hw
      cases hwps : walk_parts svc path nxt ps with
      | mk r1 r2 =>
        rw [hwps, Prod.mk.injEq] at hw
        obtain ⟨h1, h2⟩ := hw
        simp only at h1 h2
        have hihres := ih nxt cur' r2 seg rest e (by rw [hwps, h1]) hf
        simp only [List.cons_append]
        simp only [walk_parts, hfp]
        rw [hihres]
        simp only [Prod.mk.injEq]
        exact ⟨trivial, by omega⟩

theorem pySplitParts_all_slash {s : String} (h : ∀ c ∈ s.data, c = '/') :
    pySplitParts s = [] := by
  have hstrip : pyStripSlashes s = "" := by
    rw [pyStripSlashes]
    have hd : s.data.dropWhile (fun c => c = '/') = [] := by
      rw [List.dropWhile_eq_nil_iff]
      intro x hx
      simp [h x hx]
    rw [hd]
    rfl
  rw [pySplitParts, hstrip]
  rfl

theorem chainMsg_contains (seg path : String) :
    seg.data <:+: (chainMsg seg path).data ∧
      path.data <:+: (chainMsg seg path).data := by
  constructor
  · refine ⟨"Folder \x27".data,
      ("\x27 not found in path \x27" ++ path ++ "\x27").data, ?_⟩
    rw [chainMsg]
    simp [String.data_append, List.append_assoc]
  · refine ⟨("Folder \x27" ++ seg ++ "\x27 not found in path \x27").data,
      "\x27".data, ?_⟩
    rw [chainMsg]
    simp [String.data_append, List.append_assoc]

/-! Claim theorems. -/

/-- C1: size computation terminates on every folder graph, cyclic ones
included (recursive_folder_size is a total function; its well-founded
definition is the termination argument, the visited set growing inside the
finite key set of the drive along every branch).  A re-entered folder
contributes zero on the cycling branch because every descent carries a
per-branch visited list and returns 0 when the current identifier is in it;
in the two-folder cycle in which a's descendant d has a as a child and d
holds one s-byte file, calculate_folder_size(a) on a fresh cache returns
exactly s: the re-entry of a contributes 0 while d's non-cyclic contents
are counted once. -/
theorem spec_c1_cycle_termination :
    (∀ (drive : Drive) (folder_id : String) (visited : List String),
        folder_id ∈ visited →
        recursive_folder_size drive folder_id visited = 0)
    ∧ (∀ (a d : String) (s now : Int), a ≠ d → a ≠ "" →
        calculate_folder_size (cycleDrive a d s) now ⟨[], []⟩ a =
          .ok (s, set_folder_size now ⟨[], []⟩ a s)) := by
  constructor
  · intro drive fid v hv
    rw [recursive_folder_size_eq, if_pos hv]
  · intro a d s now had hae
    have hda : d ≠ a := Ne.symm had
    have hrec : recursive_folder_size (cycleDrive a d s) a [] = s := by
      simp [recursive_folder_size_eq, joined, cycleDrive, assocGet,
        size_of_items_cons, size_of_items_nil, had, hda]
    rw [calculate_folder_size, if_neg hae]
    have hcold : get_folder_size now (⟨[], []⟩ : CacheData) a = none := rfl
    rw [hcold]
    simp only [hrec]

/-- Witness for C1: the visited-set guard at a concrete input, and the
concrete two-folder cycle a <-> d with a 7-byte file in d. -/
theorem spec_c1_cycle_termination_witness :
    recursive_folder_size [] "x" ["x"] = 0 ∧
      calculate_folder_size (cycleDrive "a" "d" 7) 0 ⟨[], []⟩ "a" =
        .ok (7, set_folder_size 0 ⟨[], []⟩ "a" 7) :=
  ⟨spec_c1_cycle_termination.1 [] "x" ["x"] (by decide),
   spec_c1_cycle_termination.2 "a" "d" 7 0 (by decide) (by decide)⟩

/-- C2 as frozen is false: on the acyclic diamond graph (a contains b and c;
b and c both contain d; d holds one 10-byte file) the calculator returns 20,
counting the shared subtree once per incoming branch, while the sum of all
file sizes of the graph - hence of every file reachable from a, each counted
once - is 10.  The copy-on-descend visited set deduplicates nothing across
sibling branches. -/
theorem spec_c2_counterexample :
    recursive_folder_size diamondDrive "a" [] = 20 ∧
      drive_files_total diamondDrive = 10 := by
  constructor
  · rw [recursive_folder_size_eq_fuel diamondDrive 5 "a" [] (by decide)]
    decide
  · decide

/-- C2 amended: for every folder graph that is a tree (no folder reachable
from the root along two distinct paths, every folder listed once), the
calculator returns the sum of all file byte sizes reachable from the root,
across all result pages, and the total does not depend on the order in
which children are listed: any drive whose per-folder joined page contents
are a permutation of the tree's canonical listing yields the same total. -/
theorem spec_c2_amended (t : FTree) (D : Drive)
    (hok : tree_ok t = true) (hnd : (folder_ids t).Nodup)
    (hperm : ∀ fid, (joined D fid).Perm (joined (tree_entries t) fid)) :
    recursive_folder_size D t.rootId [] = tree_file_sum t := by
  rw [recursive_folder_size_perm hperm t.rootId []]
  apply tree_sum_of_canonical ((folder_ids t).length) t (tree_entries t) []
  · exact le_refl _
  · intro s hs
    rw [joined, tree_entries_assocGet hs hnd]
    simp
  · exact hok
  · exact hnd
  · intro x _
    simp

/-- Witness for C2 amended: the two-level sample tree evaluated on its own
canonical drive. -/
theorem spec_c2_amended_witness :
    tree_ok sampleTree = true ∧ (folder_ids sampleTree).Nodup ∧
      recursive_folder_size (tree_entries sampleTree) sampleTree.rootId [] =
        tree_file_sum sampleTree := by
  refine ⟨by decide, by decide, ?_⟩
  exact spec_c2_amended sampleTree (tree_entries sampleTree) (by decide)
    (by decide) (fun fid => List.Perm.refl _)

/-- C3: get_folder_size returns a cached size only while
now - timestamp <= CACHE_TTL_SECONDS; any older entry behaves as absent.
A size computed (cache-cold) at t0 is not returned at t0 + TTL + 1, and
calculate_folder_size then performs a fresh recomputation of the recursive
total. -/
theorem spec_c3_cache_ttl :
    (∀ (now : Int) (c : CacheData) (fid : String) (e : SizeEntry),
        assocGet ("size_" ++ fid) c.folder_sizes = some e →
        now - e.timestamp > CACHE_TTL_SECONDS →
        get_folder_size now c fid = none)
    ∧ (∀ (drive : Drive) (t0 : Int) (c : CacheData) (fid : String)
        (sz : Int) (c' : CacheData),
        get_folder_size t0 c fid = none →
        calculate_folder_size drive t0 c fid = .ok (sz, c') →
        get_folder_size (t0 + CACHE_TTL_SECONDS + 1) c' fid = none ∧
          calculate_folder_size drive (t0 + CACHE_TTL_SECONDS + 1) c' fid =
            .ok (recursive_folder_size drive fid [],
              set_folder_size (t0 + CACHE_TTL_SECONDS + 1) c' fid
                (recursive_folder_size drive fid []))) := by
  constructor
  · intro now c fid e hg ht
    rw [get_folder_size, hg]
    simp [ht]
  · intro drive t0 c fid sz c' hcold hok
    rw [calculate_folder_size] at hok
    by_cases hfi : fid = ""
    · rw [if_pos hfi] at hok; simp at hok
    · rw [if_neg hfi, hcold] at hok
      simp only at hok
      have hp := Except.ok.inj hok
      rw [Prod.mk.injEq] at hp
      have hc' : c' = set_folder_size t0 c fid (recursive_folder_size drive fid []) :=
        hp.2.symm
      have hstale :
          get_folder_size (t0 + CACHE_TTL_SECONDS + 1) c' fid = none := by
        rw [hc', get_folder_size_set_self]
        rw [if_pos (by simp [CACHE_TTL_SECONDS]; omega)]
      refine ⟨hstale, ?_⟩
      rw [calculate_folder_size, if_neg hfi, hstale]

/-- Witness for C3 on a concrete empty drive and cache. -/
theorem spec_c3_cache_ttl_witness :
    get_folder_size (0 + CACHE_TTL_SECONDS + 1)
        (set_folder_size 0 ⟨[], []⟩ "x" (recursive_folder_size [] "x" [])) "x" =
      none ∧
    calculate_folder_size [] (0 + CACHE_TTL_SECONDS + 1)
        (set_folder_size 0 ⟨[], []⟩ "x" (recursive_folder_size [] "x" [])) "x" =
      .ok (recursive_folder_size [] "x" [],
        set_folder_size (0 + CACHE_TTL_SECONDS + 1)
          (set_folder_size 0 ⟨[], []⟩ "x" (recursive_folder_size [] "x" []))
          "x" (recursive_folder_size [] "x" [])) :=
  spec_c3_cache_ttl.2 [] 0 ⟨[], []⟩ "x" (recursive_folder_size [] "x" [])
    (set_folder_size 0 ⟨[], []⟩ "x" (recursive_folder_size [] "x" []))
    rfl rfl

/-- C7: the claim's first half fails on the code.  A missing, unreadable or
non-JSON backing store is indeed treated as the fresh empty two-namespace
cache, and a write failure while persisting set_path, set_folder_size or
clear does propagate as a DriveCacheError.  But a readable store holding
valid JSON that is not an object - the JSON text [] - escapes the
except (json.JSONDecodeError, IOError) handler: the membership check
accepts the list and the subsequent assignment data['paths'] = {} raises
an uncaught TypeError, so DriveCache construction crashes instead of
behaving as empty. -/
theorem spec_c7_load_save :
    load_cache .missing = .ok emptyCacheJson ∧
    load_cache .unreadable = .ok emptyCacheJson ∧
    load_cache .notJson = .ok emptyCacheJson ∧
    load_cache (.content (.jarr [])) = .error .typeError ∧
    set_path_persist (.writeFail "disk full") 0 ⟨[], []⟩ "/A" ⟨"id", "A", "/A"⟩ =
      .error "Failed to save cache: disk full" ∧
    set_folder_size_persist (.writeFail "disk full") 0 ⟨[], []⟩ "x" 1 =
      .error "Failed to save cache: disk full" ∧
    clear_persist (.writeFail "disk full") =
      .error "Failed to save cache: disk full" :=
  ⟨rfl, rfl, rfl, rfl, rfl, rfl, rfl⟩

/-- C9 as frozen is false: after set_folder_size(id, size) the folder_sizes
namespace holds no entry under the folder id itself; the entry sits under
the key "size_" ++ id (cache.py line 70: cache_key = f-string size_ prefix,
mismatching the spec's 'folder id -> size, timestamp' description). -/
theorem spec_c9_counterexample :
    assocGet "X" (set_folder_size 100 ⟨[], []⟩ "X" 5).folder_sizes = none ∧
      assocGet "size_X" (set_folder_size 100 ⟨[], []⟩ "X" 5).folder_sizes =
        some ⟨5, 100⟩ :=
  ⟨rfl, rfl⟩

/-- C9 amended: the persisted cache file is one JSON object holding exactly
the two maps paths and folder_sizes, and after setFolderSize(id, size) the
folder_sizes map contains the entry size and timestamp keyed by the string
"size_" followed by the folder id; get_folder_size uses the same key, so
the write is read back. -/
theorem spec_c9_amended (now : Int) (c : CacheData) (fid : String) (sz : Int) :
    jsonTopKeys (dump_cache (set_folder_size now c fid sz)) =
      ["paths", "folder_sizes"] ∧
    assocGet ("size_" ++ fid) (set_folder_size now c fid sz).folder_sizes =
      some ⟨sz, now⟩ ∧
    get_folder_size now (set_folder_size now c fid sz) fid = some sz := by
  refine ⟨rfl, ?_, ?_⟩
  · rw [set_folder_size]
    exact assocGet_assocSet_self _ _ _
  · rw [get_folder_size_set_self]
    rw [if_neg (by simp [CACHE_TTL_SECONDS])]

/-- C4: path resolution is transactional per request.  For a multi-segment
path not served from the cache, if the segment walk fails then resolve
returns the DrivePathNotFoundError and the cache it returns is exactly the
cache it was given - no entry is written for the requested path or for any
successfully resolved intermediate prefix (the walk never touches the
cache); set_path happens only when the whole chain succeeds. -/
theorem spec_c4_transactional (svc : PathsSvc) (c : CacheData) (now : Int)
    (path : String) :
    path ≠ "" → path ≠ "/" → get_path c path = none →
    (∀ e k, resolve_path_components svc path = (.error e, k) →
        resolve svc c now path = (.error e, c, k, 1)) ∧
    (∀ pi k, resolve_path_components svc path = (.ok pi, k) →
        resolve svc c now path = (.ok pi, set_path now c path pi, k, 1)) := by
  intro h1 h2 h3
  constructor
  · intro e k hr
    simp [resolve, h1, h2, h3, hr]
  · intro pi k hr
    simp [resolve, h1, h2, h3, hr]

/-- Witness for C4: a one-segment path on a remote with no folders fails
and leaves the empty cache untouched. -/
theorem spec_c4_transactional_witness :
    resolve ⟨fun _ _ => .noMatch⟩ ⟨[], []⟩ 0 "/x" =
      (.error (chainMsg "x" "/x"), ⟨[], []⟩, 1, 1) :=
  (spec_c4_transactional ⟨fun _ _ => .noMatch⟩ ⟨[], []⟩ 0 "/x"
    (by decide) (by decide) rfl).1 (chainMsg "x" "/x") 1 rfl

/-- C5: resolve("") and resolve("/") return the well-known root immediately
with zero remote lookups and zero cache lookups; on a cold cache,
resolve("/A/B") performs one cache lookup and exactly two remote lookups
(one per segment), writing the final mapping back, after which a second
resolve of the same path string performs zero remote lookups (pure cache
hit), under any service and at any time. -/
theorem spec_c5_resolve_counts (svc : PathsSvc) (c : CacheData) (now : Int) :
    resolve svc c now "" = (.ok ⟨"root", "My Drive", "/"⟩, c, 0, 0) ∧
    resolve svc c now "/" = (.ok ⟨"root", "My Drive", "/"⟩, c, 0, 0) ∧
    (∀ aid an bid bn : String,
      get_path c "/A/B" = none →
      svc.find "root" "A" = .found aid an →
      svc.find aid "B" = .found bid bn →
      resolve svc c now "/A/B" =
        (.ok ⟨bid, bn, "/A/B"⟩,
          set_path now c "/A/B" ⟨bid, bn, "/A/B"⟩, 2, 1) ∧
      ∀ (svc' : PathsSvc) (now' : Int),
        resolve svc' (set_path now c "/A/B" ⟨bid, bn, "/A/B"⟩) now' "/A/B" =
          (.ok ⟨bid, bn, "/A/B"⟩,
            set_path now c "/A/B" ⟨bid, bn, "/A/B"⟩, 0, 1)) := by
  refine ⟨rfl, rfl, ?_⟩
  intro aid an bid bn hcold hfa hfb
  have hsplit : pySplitParts "/A/B" = ["A", "B"] := by decide
  have hrpc : resolve_path_components svc "/A/B" = (.ok ⟨bid, bn, "/A/B"⟩, 2) := by
    rw [resolve_path_components, hsplit]
    simp only [walk_parts, find_folder_in_parent, hfa, hfb]
  constructor
  · simp [resolve, hcold, hrpc]
  · intro svc' now'
    have hwarm : get_path (set_path now c "/A/B" ⟨bid, bn, "/A/B"⟩) "/A/B" =
        some ⟨bid, bn, "/A/B"⟩ := by
      rw [get_path, set_path]
      simp only [assocGet_assocSet_self]
    simp [resolve, hwarm]

/-- Witness for C5 on a concrete two-folder remote and the empty cache. -/
theorem spec_c5_resolve_counts_witness :
    resolve
        ⟨fun p n =>
          if p = "root" && n = "A" then .found "aid" "nA"
          else if p = "aid" && n = "B" then .found "bid" "nB"
          else .noMatch⟩
        ⟨[], []⟩ 0 "/A/B" =
      (.ok ⟨"bid", "nB", "/A/B"⟩,
        set_path 0 ⟨[], []⟩ "/A/B" ⟨"bid", "nB", "/A/B"⟩, 2, 1) ∧
    resolve
        ⟨fun _ _ => .noMatch⟩
        (set_path 0 ⟨[], []⟩ "/A/B" ⟨"bid", "nB", "/A/B"⟩) 99 "/A/B" =
      (.ok ⟨"bid", "nB", "/A/B"⟩,
        set_path 0 ⟨[], []⟩ "/A/B" ⟨"bid", "nB", "/A/B"⟩, 0, 1) := by
  have h := (spec_c5_resolve_counts
    ⟨fun p n =>
      if p = "root" && n = "A" then .found "aid" "nA"
      else if p = "aid" && n = "B" then .found "bid" "nB"
      else .noMatch⟩
    ⟨[], []⟩ 0).2.2 "aid" "nA" "bid" "nB" rfl rfl rfl
  exact ⟨h.1, h.2 ⟨fun _ _ => .noMatch⟩ 99⟩

/-- C8: when a prefix of the path resolves but some segment has zero
matching child folders, resolve fails with a DrivePathNotFoundError whose
message names both the failing segment and the full requested path - both
strings occur verbatim inside the message - and the cache is left
unchanged. -/
theorem spec_c8_notfound_message (svc : PathsSvc) (c : CacheData) (now : Int)
    (path : String) (pre : List String) (seg : String) (rest : List String)
    (pid pname : String) (k : Nat) :
    path ≠ "" → path ≠ "/" → get_path c path = none →
    pySplitParts path = pre ++ seg :: rest →
    walk_parts svc path ("root", "My Drive") pre = (.ok (pid, pname), k) →
    svc.find pid seg = .noMatch →
    resolve svc c now path = (.error (chainMsg seg path), c, k + 1, 1) ∧
      seg.data <:+: (chainMsg seg path).data ∧
      path.data <:+: (chainMsg seg path).data := by
  intro h1 h2 h3 hsplit hwalk hfind
  have hferr : find_folder_in_parent svc (pid, pname).1 seg =
      .error (notFoundMsg seg) := by
    simp [find_folder_in_parent, hfind]
  have hw := walk_parts_append_fail svc path pre ("root", "My Drive")
    (pid, pname) k seg rest _ hwalk hferr
  have hrpc : resolve_path_components svc path =
      (.error (chainMsg seg path), k + 1) := by
    rw [resolve_path_components, hsplit, hw]
  refine ⟨?_, (chainMsg_contains seg path).1, (chainMsg_contains seg path).2⟩
  simp [resolve, h1, h2, h3, hrpc]

/-- Witness for C8: the path /A/Z where A exists under the root and Z does
not exist under A. -/
theorem spec_c8_notfound_message_witness :
    resolve
        ⟨fun p n => if p = "root" && n = "A" then .found "idA" "A" else .noMatch⟩
        ⟨[], []⟩ 0 "/A/Z" =
      (.error (chainMsg "Z" "/A/Z"), ⟨[], []⟩, 1 + 1, 1) ∧
      "Z".data <:+: (chainMsg "Z" "/A/Z").data ∧
      "/A/Z".data <:+: (chainMsg "Z" "/A/Z").data :=
  spec_c8_notfound_message
    ⟨fun p n => if p = "root" && n = "A" then .found "idA" "A" else .noMatch⟩
    ⟨[], []⟩ 0 "/A/Z" ["A"] "Z" [] "idA" "A" 1
    (by decide) (by decide) rfl (by decide) rfl rfl

/-- C10: a path of length at least two consisting only of slashes resolves
to the root identifier with zero remote lookups, but unlike "/" it does not
take the immediate-root branch: it performs one cache lookup and, on a cold
cache, writes a cache entry under that exact slash-only path string (the
strip-then-split yields zero segments, so the walk ends at the root). -/
theorem spec_c10_slash_only (svc : PathsSvc) (c : CacheData) (now : Int)
    (p : String) :
    2 ≤ p.length → (∀ ch ∈ p.data, ch = '/') → get_path c p = none →
    resolve svc c now p =
      (.ok ⟨"root", "My Drive", p⟩,
        set_path now c p ⟨"root", "My Drive", p⟩, 0, 1) ∧
    get_path (set_path now c p ⟨"root", "My Drive", p⟩) p =
      some ⟨"root", "My Drive", p⟩ := by
  intro hlen hslash hcold
  have hne1 : p ≠ "" := by
    intro he
    rw [he] at hlen
    exact absurd hlen (by decide)
  have hne2 : p ≠ "/" := by
    intro he
    rw [he] at hlen
    exact absurd hlen (by decide)
  have hparts : pySplitParts p = [] := pySplitParts_all_slash hslash
  have hrpc : resolve_path_components svc p = (.ok ⟨"root", "My Drive", p⟩, 0) := by
    rw [resolve_path_components, hparts, walk_parts]
  constructor
  · simp [resolve, hne1, hne2, hcold, hrpc]
  · rw [get_path, set_path]
    simp only [assocGet_assocSet_self]

/-- Witness for C10 at the concrete path "//" on the empty cache. -/
theorem spec_c10_slash_only_witness :
    resolve ⟨fun _ _ => .noMatch⟩ ⟨[], []⟩ 0 "//" =
      (.ok ⟨"root", "My Drive", "//"⟩,
        set_path 0 ⟨[], []⟩ "//" ⟨"root", "My Drive", "//"⟩, 0, 1) ∧
    get_path (set_path 0 ⟨[], []⟩ "//" ⟨"root", "My Drive", "//"⟩) "//" =
      some ⟨"root", "My Drive", "//"⟩ :=
  spec_c10_slash_only ⟨fun _ _ => .noMatch⟩ ⟨[], []⟩ 0 "//"
    (by decide) (by decide) rfl

/-- C6: with show_size enabled, every folder entry of the listing that
list_files returns carries a calculated size: an unowned folder is assigned
exactly 0, whatever the drive holds under it (the statement quantifies over
every drive), and an owned folder gets the size computed by
calculate_folder_size, namely the recursive traversal total of that folder
(given that the size cache is coherent with the drive, as the fresh empty
cache is). -/
theorem spec_c6_show_sizes (fetch : FetchFn) (drive : Drive) (now : Int)
    (c : CacheData) (folder_id : String) (o : ListOptions)
    (res : List DriveItem) (c' : CacheData) :
    o.show_size = true →
    size_inv drive c →
    list_files fetch drive now c folder_id o = .ok (res, c') →
    ∀ it ∈ res, it.is_folder = true →
      (it.owned_by_me = false → it.calculated_size = some 0) ∧
      (it.owned_by_me = true →
        it.calculated_size = some (recursive_folder_size drive it.id [])) := by
  intro hss hinv h it hmem hfold
  by_cases hfi : folder_id = ""
  · simp [list_files, hfi] at h
  · simp only [list_files, hfi, hss, if_true, if_false, Bool.false_eq_true] at h
    cases hcf : calc_folder_sizes drive now c
        (if o.owned_only then
          ((fetch folder_id o.show_hidden).flatten).filter
            (fun it => it.owned_by_me)
        else (fetch folder_id o.show_hidden).flatten) with
    | error e => rw [hcf] at h; simp at h
    | ok q =>
      obtain ⟨items₂, c₂⟩ := q
      rw [hcf] at h
      simp only at h
      have hp := Except.ok.inj h
      rw [Prod.mk.injEq] at hp
      have hmem₂ : it ∈ items₂ := by
        rw [← hp.1] at hmem
        exact mem_sort_items.mp hmem
      exact calc_folder_sizes_mem_spec hinv hcf it hmem₂ hfold

/-- Witness for C6: a listing holding one unowned shared folder, with
show_size set, on the empty drive and cache; the folder reports size 0. -/
theorem spec_c6_show_sizes_witness :
    list_files
        (fun _ _ => [[⟨"g", "Shared", folderMime, none, none, false, true, none⟩]])
        [] 0 ⟨[], []⟩ "fid" ⟨false, "name", false, true, false⟩ =
      .ok ([⟨"g", "Shared", folderMime, none, none, false, true, some 0⟩],
        ⟨[], []⟩) ∧
    (⟨"g", "Shared", folderMime, none, none, false, true,
        some 0⟩ : DriveItem).calculated_size = some 0 := by
  have hlf : list_files
      (fun _ _ => [[⟨"g", "Shared", folderMime, none, none, false, true, none⟩]])
      [] 0 ⟨[], []⟩ "fid" ⟨false, "name", false, true, false⟩ =
      .ok ([⟨"g", "Shared", folderMime, none, none, false, true, some 0⟩],
        ⟨[], []⟩) := by
    simp [list_files, calc_folder_sizes, DriveItem.is_folder, sort_items,
      List.mergeSort]
  refine ⟨hlf, ?_⟩
  have h := spec_c6_show_sizes
    (fun _ _ => [[⟨"g", "Shared", folderMime, none, none, false, true, none⟩]])
    [] 0 ⟨[], []⟩ "fid" ⟨false, "name", false, true, false⟩
    [⟨"g", "Shared", folderMime, none, none, false, true, some 0⟩] ⟨[], []⟩
    rfl (fun k e hk => by simp [assocGet] at hk) hlf
    ⟨"g", "Shared", folderMime, none, none, false, true, some 0⟩
    (by simp) (by decide)
  exact h.1 rfl

end Gdls
